import Mathlib

/-!
Verification of the auditok streaming-audio ingestion layer
(`src/auditok/util.py`): the channel selector, energy validator, and the
recording / limiting / fixed-window / overlapping-window reader pipeline.

Bytes are modelled as lists of naturals, durations as rationals, and each
decorator of the pipeline as an explicit state machine whose step function
follows the corresponding Python method line by line.
-/

/-- Raw audio data: a sequence of byte values, as produced by `read`. -/
abbrev Bytes := List Nat

/-- Byte values of a text buffer such as the "abcdefghijklmnop" test buffer. -/
def strBytes (s : String) : Bytes := s.toList.map Char.toNat

/-- Python `int(x)` on a real value: truncation toward zero. -/
def pyInt (x : ℚ) : ℤ := if 0 ≤ x then ⌊x⌋ else ⌈x⌉

/-- Python `round(x)` to an integer: round half to even (banker's rounding). -/
def pyRound (x : ℚ) : ℤ :=
  if x - ⌊x⌋ < 1/2 then ⌊x⌋
  else if 1/2 < x - ⌊x⌋ then ⌊x⌋ + 1
  else if ⌊x⌋ % 2 = 0 then ⌊x⌋ else ⌊x⌋ + 1

/-- Python slicing `l[:m]` with an integer (possibly negative) bound. -/
def pyTake (l : Bytes) (m : ℤ) : Bytes :=
  if 0 ≤ m then l.take m.toNat else l.take (l.length - (-m).toNat)

/-- Total number of bytes in a list of read results (absent results count 0). -/
def totalLen (rs : List (Option Bytes)) : ℕ :=
  ((rs.filterMap id).map List.length).sum

/-- Run a read step function `k` times from a state, collecting the results
in order together with the final state. -/
def runReads {α β : Type} (step : α → β × α) : α → ℕ → List β × α
  | s, 0 => ([], s)
  | s, k+1 =>
    let p := step s
    let rest := runReads step p.2 k
    (p.1 :: rest.1, rest.2)

/-- Modelled from the spec: `BufferAudioSource` from `auditok.io` (not under
`src/`), the rewindable in-memory source over a raw byte buffer (spec §6 and
§3): `read(n)` returns the next `min(n, remaining)` samples as bytes, or the
absent marker (`None`) once the buffer is exhausted; each sample is
`bps = sample_width * channels` bytes. -/
structure BufSrc where
  data : Bytes
  pos : ℕ
  bps : ℕ
deriving DecidableEq

/-- Modelled from the spec: one `read(n)` call on a `BufferAudioSource`. -/
def bufRead (s : BufSrc) (n : ℕ) : Option Bytes × BufSrc :=
  if s.data.length ≤ s.pos then (none, s)
  else
    let chunk := (s.data.drop s.pos).take (n * s.bps)
    (some chunk, { s with pos := s.pos + chunk.length })

/-- Modelled from the spec: `rewind()` on a `BufferAudioSource` (always
succeeds, resets the position to the start). -/
def bufRewind (s : BufSrc) : BufSrc := { s with pos := 0 }

/-- An abstract wrapped audio source, as consumed by the overlapping-window
decorator: a read operation and an open test over a state type. -/
structure Src (σ : Type) where
  read : σ → ℕ → Option Bytes × σ
  isOpen : σ → Bool

/-- A `Src` over an open in-memory buffer source. -/
def bufSrcS : Src BufSrc := ⟨bufRead, fun _ => true⟩

/-- A scripted source used to exercise the overlap reader against arbitrary
wrapped-source behaviours: each read pops the next prescribed result. -/
def scriptRead (s : List (Option Bytes)) (_n : ℕ) : Option Bytes × List (Option Bytes) :=
  match s with
  | [] => (none, [])
  | o :: rest => (o, rest)

/-- The scripted source packaged as an (always open) `Src`. -/
def scriptSrc : Src (List (Option Bytes)) := ⟨scriptRead, fun _ => true⟩

/-- Suspension point of the generator `_OverlapAudioReader._iter_blocks_with_overlap`
(util.py lines 929-949):
`start` = not yet started (also the not-open yield loop);
`afterFirstEos` = suspended at the first `yield None` (the first read returned
`None`; resuming executes `cache = block[_hop_size_bytes:]` on `None` and
raises `TypeError`);
`looping cache` = suspended inside the `while True` loop with carry `cache`
(resuming reads `hop_size` samples again);
`closed` = the generator terminated by an exception, so `next` raises
`StopIteration`, which `read` turns into `None`. -/
inductive OGen where
  | start
  | afterFirstEos
  | looping (cache : Bytes)
  | closed
deriving DecidableEq

/-- Result of one `read()` call on the overlapping-window reader: a data
window, the absent end-of-stream marker (`None`), or a raised exception. -/
inductive ORes where
  | block (b : Bytes)
  | eos
  | error
deriving DecidableEq

/-- State of `_OverlapAudioReader`: the wrapped source, the sizes computed at
construction (`hopBytes = hop_size * sw * ch`), and the generator state. -/
structure OSt (σ : Type) where
  src : σ
  blockSize : ℕ
  hopSize : ℕ
  hopBytes : ℕ
  gen : OGen
deriving DecidableEq

/-- One `read()` call on `_OverlapAudioReader` (util.py lines 951-958),
advancing the generator `_iter_blocks_with_overlap` (lines 929-949). -/
def oRead {σ : Type} (S : Src σ) (r : OSt σ) : ORes × OSt σ :=
  match r.gen with
  | .start =>
    if ¬ S.isOpen r.src then (.error, r)
    else
      match S.read r.src r.blockSize with
      | (none, s') => (.eos, { r with src := s', gen := .afterFirstEos })
      | (some blk, s') =>
        (.block blk, { r with src := s', gen := .looping (blk.drop r.hopBytes) })
  | .afterFirstEos => (.error, { r with gen := .closed })
  | .closed => (.eos, r)
  | .looping cache =>
    match S.read r.src r.hopSize with
    | (none, s') => (.eos, { r with src := s' })
    | (some blk, s') =>
      if blk.isEmpty then (.eos, { r with src := s' })
      else
        let blk' := cache ++ blk
        (.block blk', { r with src := s', gen := .looping (blk'.drop r.hopBytes) })

/-- Errors raised eagerly by the windowing constructors. -/
inductive InitErr where
  | invalidArgument
  | blockDurationTooSmall
deriving DecidableEq

/-- `_FixedSizeAudioReader.__init__` (util.py lines 881-896): checks
`block_dur > 0`, computes `block_size = int(block_dur * sr)` and rejects a
zero block size. Returns the computed block size. -/
def fixedInit (blockDur : ℚ) (sr : ℕ) : Except InitErr ℕ :=
  if blockDur ≤ 0 then .error .invalidArgument
  else
    let bs := (pyInt (blockDur * sr)).toNat
    if bs = 0 then .error .blockDurationTooSmall
    else .ok bs

/-- `_OverlapAudioReader.__init__` (util.py lines 919-927): rejects
`hop_dur >= block_dur`, then runs the fixed-size initializer and computes
`hop_size = int(hop_dur * sr)`. Returns `(block_size, hop_size)`. -/
def overlapInit (blockDur hopDur : ℚ) (sr : ℕ) : Except InitErr (ℕ × ℤ) :=
  if blockDur ≤ hopDur then .error .invalidArgument
  else
    match fixedInit blockDur sr with
    | .error e => .error e
    | .ok bs => .ok (bs, pyInt (hopDur * sr))

/-- Checks that in a list of windows, each window after the first starts
with exactly the `ov` trailing bytes of its predecessor. -/
def overlapsOk (ov : ℕ) : List Bytes → Bool
  | a :: b :: rest =>
    (b.take ov == a.drop (a.length - ov) && (b.take ov).length == ov)
      && overlapsOk ov (b :: rest)
  | _ => true

/-- The `selected` argument of `make_channel_selector` / the `use_channel`
argument of `AudioEnergyValidator`: a Python int, string, or `None`. -/
inductive ChMode where
  | int (i : ℤ)
  | str (s : String)
  | null
deriving DecidableEq

/-- Error raised by `make_channel_selector` (a Python `ValueError`). -/
inductive SelErr where
  | invalidArgument
deriving DecidableEq

/-- Which selector callable `make_channel_selector` returns. -/
inductive SelKind where
  | identity
  | extractSingle (selected : ℕ)
  | averageStereo
  | averageMulti
  | separate
deriving DecidableEq

/-- `make_channel_selector` (util.py lines 87-174): validates the sample
width against the keys `{1, 2, 4}` of the signal module's format table
(the table lives in the external signal module; its domain is taken from
the spec §4.1), returns the identity for mono data, and otherwise
dispatches on `selected`. -/
def make_channel_selector (sample_width channels : ℕ) (selected : ChMode) :
    Except SelErr SelKind :=
  if sample_width ≠ 1 ∧ sample_width ≠ 2 ∧ sample_width ≠ 4 then .error .invalidArgument
  else if channels = 1 then .ok .identity
  else
    match selected with
    | .int i =>
      let j := if i < 0 then i + channels else i
      if j < 0 ∨ (channels : ℤ) ≤ j then .error .invalidArgument
      else .ok (.extractSingle j.toNat)
    | .str s =>
      if s = "mix" ∨ s = "avg" ∨ s = "average" then
        if channels = 2 then .ok .averageStereo else .ok .averageMulti
      else if s = "any" then .ok .separate
      else .error .invalidArgument
    | .null => .ok .separate

/-- The two energy primitives of the external signal module that
`AudioEnergyValidator` can bind to `_energy_fn`. -/
inductive EnergyFn where
  | single
  | multi
deriving DecidableEq

/-- The energy-function choice in `AudioEnergyValidator.__init__` (util.py
lines 214-217): `calculate_energy_single_channel` when `channels == 1` or
`use_channel not in (None, "any")`, else `calculate_energy_multichannel`. -/
def energyFnChoice (channels : ℕ) (use_channel : ChMode) : EnergyFn :=
  if channels = 1 ∨ ¬ (use_channel = .null ∨ use_channel = .str "any") then .single
  else .multi

/-- `AudioEnergyValidator.__init__` (util.py lines 206-218): builds the
channel selector (which may raise), then picks the energy function. -/
def audioEnergyValidatorInit (sample_width channels : ℕ) (use_channel : ChMode) :
    Except SelErr (SelKind × EnergyFn) :=
  match make_channel_selector sample_width channels use_channel with
  | .error e => .error e
  | .ok sel => .ok (sel, energyFnChoice channels use_channel)

/-- State of `_Limiter` (util.py lines 837-873): the wrapped source, the
sample budget `maxSamples = round(max_read * sr)`, the per-sample byte
count `bps = sw * ch`, and the consumed-sample counter. -/
structure LimSt (σ : Type) where
  src : σ
  maxSamples : ℤ
  bps : ℕ
  readSamples : ℕ
deriving DecidableEq

/-- `_Limiter.__init__` (util.py lines 844-849). -/
def limiterInit {σ : Type} (src : σ) (maxRead : ℚ) (sr sw ch : ℕ) : LimSt σ :=
  ⟨src, pyRound (maxRead * sr), sw * ch, 0⟩

/-- `_Limiter.read` (util.py lines 861-869): clamp the request to the
remaining budget, return the absent marker when nothing remains, otherwise
forward the clamped request and count the returned samples. -/
def limRead {σ : Type} (rd : σ → ℕ → Option Bytes × σ) (n : ℕ) (L : LimSt σ) :
    Option Bytes × LimSt σ :=
  let size : ℤ := min (L.maxSamples - L.readSamples) (n : ℤ)
  if size ≤ 0 then (none, L)
  else
    match rd L.src size.toNat with
    | (none, s') => (none, { L with src := s' })
    | (some blk, s') =>
      (some blk, { L with src := s', readSamples := L.readSamples + blk.length / L.bps })

/-- `_Limiter.data` (util.py lines 851-855): fetch the wrapped source's
recorded data (absent if that access raises) and slice it to
`maxSamples * bps` bytes. -/
def limData {σ : Type} (dataOf : σ → Option Bytes) (L : LimSt σ) : Option Bytes :=
  (dataOf L.src).map (fun d => pyTake d (L.maxSamples * L.bps))

/-- State of `_Recorder` (util.py lines 789-834): `live` wraps the original
source and accumulates the cache (`_read_from_cache = False`); `replay`
wraps the in-memory source built by the first rewind
(`_read_from_cache = True`, `_data` = that buffer's contents). -/
inductive RecSt (σ : Type) where
  | live (src : σ) (cache : List Bytes)
  | replay (buf : BufSrc)
deriving DecidableEq

/-- `_Recorder.read` / `_read_and_cache` (util.py lines 802-803, 829-834):
in `live`, read from the wrapped source and append any non-absent block to
the cache; in `replay`, read from the in-memory source. -/
def recRead {σ : Type} (rd : σ → ℕ → Option Bytes × σ) (n : ℕ) :
    RecSt σ → Option Bytes × RecSt σ
  | .live src cache =>
    match rd src n with
    | (none, src') => (none, .live src' cache)
    | (some blk, src') => (some blk, .live src' (cache ++ [blk]))
  | .replay buf =>
    match bufRead buf n with
    | (b, buf') => (b, .replay buf')

/-- `_Recorder.rewindable` (util.py lines 813-814): always `True`. -/
def recRewindable {σ : Type} : RecSt σ → Bool := fun _ => true

/-- `_Recorder.rewind` (util.py lines 816-827), parameterized by the wrapped
source's own rewind operation `rw` (which may fail when the source is not
rewindable): in `live`, join the cache into a buffer source (never calling
`rw`); in `replay`, rewind the in-memory source. -/
def recRewind {σ : Type} (rw : σ → Option σ) (bpsOf : σ → ℕ) :
    RecSt σ → Option (RecSt σ)
  | .live src cache => some (.replay ⟨cache.flatten, 0, bpsOf src⟩)
  | .replay buf => some (.replay (bufRewind buf))

/-- `_Recorder.data` (util.py lines 805-811): raises (absent) before the
first rewind, afterwards returns the materialized recording. -/
def recDataAcc {σ : Type} : RecSt σ → Option Bytes
  | .live _ _ => none
  | .replay buf => some buf.data

/-- The read result the buffer source yields at read index `k` when reads of
`need` bytes each start from byte position `p`. -/
def bufChunk (data : Bytes) (need p k : ℕ) : Option Bytes :=
  if p + k * need < data.length then some ((data.drop (p + k * need)).take need)
  else none

/-! Helper lemmas shared by the claim theorems. -/

theorem runReads_succ {α β : Type} (step : α → β × α) (s : α) (k : ℕ) :
    runReads step s (k+1)
      = ((step s).1 :: (runReads step (step s).2 k).1, (runReads step (step s).2 k).2) :=
  rfl

theorem runReads_succ_fst {α β : Type} (step : α → β × α) (s : α) (k : ℕ) :
    (runReads step s (k+1)).1 = (step s).1 :: (runReads step (step s).2 k).1 := rfl

/-! Claim theorems. -/

/-- C1: over an open source whose first read yields end-of-stream, the first
`read()` of the overlapping-window reader returns the absent marker, but the
second `read()` raises (`cache = block[_hop_size_bytes:]` subscripts `None`,
a `TypeError`), and only from the third call on does `read()` return the
absent marker again (the generator is closed, `StopIteration` is caught).
This contradicts the claim that every subsequent call yields end-of-stream
without raising. -/
theorem overlap_first_eos_second_read_raises :
    (runReads (oRead scriptSrc) ⟨[none], 4, 2, 2, OGen.start⟩ 3).1
      = [ORes.eos, ORes.error, ORes.eos] := by decide

/-- C2: the overlapping-window reader with `block_dur = 0.25`,
`hop_dur = 0.125` over the 16-byte buffer "abcdefghijklmnop" at rate 16,
width 1, one channel: the computed sizes are block 4, hop 2, the first five
windows are "abcd", "cdef", "efgh", "ghij", "ijkl", and every window after
the first begins with exactly the `blockSize - hopSize = 2` trailing bytes
of its predecessor. -/
theorem overlap_example_windows :
    overlapInit (1/4) (1/8) 16 = .ok (4, 2) ∧
    (runReads (oRead bufSrcS)
        ⟨⟨strBytes "abcdefghijklmnop", 0, 1⟩, 4, 2, 2, OGen.start⟩ 5).1
      = [ORes.block (strBytes "abcd"), ORes.block (strBytes "cdef"),
         ORes.block (strBytes "efgh"), ORes.block (strBytes "ghij"),
         ORes.block (strBytes "ijkl")] ∧
    overlapsOk 2 [strBytes "abcd", strBytes "cdef", strBytes "efgh",
       strBytes "ghij", strBytes "ijkl"] = true := by
  refine ⟨?_, by decide, by decide⟩
  norm_num [overlapInit, fixedInit, pyInt]
  rfl

/-- C5: both windowing constructors reject `block_dur <= 0` with the
invalid-argument error; for a positive `block_dur` they raise the
block-duration-too-small error exactly when `floor(block_dur * rate) = 0`
(for the overlapping constructor, provided its own `hop_dur < block_dur`
check passes). The checks are part of the initializers; the read step
functions perform no such check. -/
theorem windowing_init_checks (bd hd : ℚ) (sr : ℕ) :
    (bd ≤ 0 →
      fixedInit bd sr = .error .invalidArgument
      ∧ overlapInit bd hd sr = .error .invalidArgument)
    ∧ (0 < bd →
      (fixedInit bd sr = .error .blockDurationTooSmall ↔ ⌊bd * (sr : ℚ)⌋ = 0)
      ∧ (hd < bd →
        (overlapInit bd hd sr = .error .blockDurationTooSmall ↔ ⌊bd * (sr : ℚ)⌋ = 0))) := by
  constructor
  · intro h
    refine ⟨by rw [fixedInit, if_pos h], ?_⟩
    rw [overlapInit]
    by_cases hbh : bd ≤ hd
    · rw [if_pos hbh]
    · rw [if_neg hbh, fixedInit, if_pos h]
  · intro h
    have h0 : (0:ℚ) ≤ bd * sr := mul_nonneg h.le (Nat.cast_nonneg sr)
    have hpy : pyInt (bd * sr) = ⌊bd * (sr : ℚ)⌋ := if_pos h0
    have hfl : 0 ≤ ⌊bd * (sr : ℚ)⌋ := Int.floor_nonneg.mpr h0
    have hfix : fixedInit bd sr = .error .blockDurationTooSmall ↔ ⌊bd * (sr : ℚ)⌋ = 0 := by
      rw [fixedInit, if_neg (not_le.mpr h)]
      by_cases hz : ⌊bd * (sr : ℚ)⌋ = 0
      · simp only [hpy, hz]
        norm_num
      · have hbs : (pyInt (bd * sr)).toNat ≠ 0 := by rw [hpy]; omega
        simp only [if_neg hbs]
        constructor
        · intro he; exact absurd he (fun hcon => Except.noConfusion hcon)
        · intro hc; exact absurd hc hz
    refine ⟨hfix, fun hhd => ?_⟩
    rw [overlapInit, if_neg (not_le.mpr hhd)]
    rcases hc : fixedInit bd sr with e | bs
    · rw [hc] at hfix
      simpa using hfix
    · rw [hc] at hfix
      simp only at hfix ⊢
      constructor
      · intro he; exact Except.noConfusion he
      · intro hz; exact absurd (hfix.mpr hz) (fun hcon => Except.noConfusion hcon)

/-- C5 witness: at `block_dur = 1/32`, `hop_dur = 1/64`, rate 16, the
positive-duration branch applies and both constructors report the
block-duration-too-small error, matching `floor(1/32 * 16) = 0`. -/
theorem windowing_init_checks_witness :
    (0:ℚ) < 1/32
    ∧ (fixedInit (1/32) 16 = .error .blockDurationTooSmall ↔ ⌊(1/32 : ℚ) * ((16:ℕ) : ℚ)⌋ = 0)
    ∧ (overlapInit (1/32) (1/64) 16 = .error .blockDurationTooSmall
        ↔ ⌊(1/32 : ℚ) * ((16:ℕ) : ℚ)⌋ = 0) := by
  have h := (windowing_init_checks (1/32) (1/64) 16).2 (by norm_num)
  exact ⟨by norm_num, h.1, h.2 (by norm_num)⟩

/-- C6 counterexample: for `channels = 1` the selector factory returns the
identity before validating the mode, so an invalid mode string does not
fail with the invalid-argument error, contradicting the claim for channel
count 1. -/
theorem selector_mono_invalid_mode_is_identity :
    make_channel_selector 2 1 (ChMode.str "bogus") = Except.ok SelKind.identity := by
  rfl

/-- C6 (amended): for every valid sample width and every channel count >= 2,
a mode value that is not an integer, not one of "mix"/"avg"/"average", and
not None/"any" fails with the invalid-argument error (for `channels = 1`
the factory returns the identity selector without validating the mode). -/
theorem selector_invalid_mode_fails (sw ch : ℕ) (s : String)
    (hsw : sw = 1 ∨ sw = 2 ∨ sw = 4) (hch : 2 ≤ ch)
    (hs : s ≠ "mix" ∧ s ≠ "avg" ∧ s ≠ "average" ∧ s ≠ "any") :
    make_channel_selector sw ch (ChMode.str s) = Except.error SelErr.invalidArgument := by
  have hch1 : ch ≠ 1 := by omega
  rw [make_channel_selector, if_neg (by rcases hsw with h | h | h <;> simp [h]),
    if_neg hch1]
  simp only [if_neg (by tauto : ¬ (s = "mix" ∨ s = "avg" ∨ s = "average")),
    if_neg hs.2.2.2]

/-- C6 witness: `make_channel_selector(2, 2, "bogus")` fails with the
invalid-argument error. -/
theorem selector_invalid_mode_fails_witness :
    make_channel_selector 2 2 (ChMode.str "bogus") = Except.error SelErr.invalidArgument :=
  selector_invalid_mode_fails 2 2 "bogus" (by norm_num) (by norm_num)
    (by refine ⟨?_, ?_, ?_, ?_⟩ <;> decide)

/-- C8 counterexample: with block size 4 and hop size 2, a wrapped source
that returns "abcd", then end-of-stream, then "ef" makes the overlap reader
return the window "abcd", then the absent marker, then the window "cdef":
the sequence resumes after an end-of-stream, contradicting the claim that
all calls after an empty hop read return end-of-stream even if the wrapped
source later returns data. -/
theorem overlap_resumes_after_eos :
    (runReads (oRead scriptSrc)
        ⟨[some (strBytes "abcd"), none, some (strBytes "ef")], 4, 2, 2, OGen.start⟩ 3).1
      = [ORes.block (strBytes "abcd"), ORes.eos, ORes.block (strBytes "cdef")] := by
  decide

/-- C8 (amended): once a subsequent (non-first) hop read comes back
empty/end-of-stream, that `read()` call returns end-of-stream, the carry
buffer is retained unchanged, and every following `read()` call returns
end-of-stream for as long as the wrapped source keeps returning
empty/end-of-stream; if the wrapped source later returns non-empty data the
window sequence resumes from the retained carry buffer. -/
theorem overlap_eos_persists_while_source_empty (cache : Bytes)
    (r : OSt (List (Option Bytes))) (k : ℕ)
    (hgen : r.gen = OGen.looping cache)
    (hsrc : ∀ o ∈ r.src, o = none ∨ o = some []) :
    (runReads (oRead scriptSrc) r k).1 = List.replicate k ORes.eos := by
  induction k generalizing r with
  | zero => rfl
  | succ k ih =>
    obtain ⟨src, bs, hs, hb, gen⟩ := r
    dsimp only at hgen
    subst hgen
    rw [runReads_succ_fst, List.replicate_succ]
    cases src with
    | nil =>
      exact congrArg₂ List.cons rfl
        (ih ⟨[], bs, hs, hb, OGen.looping cache⟩ rfl (by intro o ho; cases ho))
    | cons o rest =>
      have hrest : ∀ x ∈ rest, x = none ∨ x = some [] :=
        fun x hx => hsrc x (List.mem_cons_of_mem o hx)
      rcases hsrc o (List.mem_cons_self o rest) with rfl | rfl
      · exact congrArg₂ List.cons rfl
          (ih ⟨rest, bs, hs, hb, OGen.looping cache⟩ rfl hrest)
      · exact congrArg₂ List.cons rfl
          (ih ⟨rest, bs, hs, hb, OGen.looping cache⟩ rfl hrest)

/-- C8 witness: from the loop state with carry `[1, 2]`, three reads over a
source scripted to return end-of-stream, an empty block, and end-of-stream
all return the absent marker. -/
theorem overlap_eos_persists_witness :
    (runReads (oRead scriptSrc)
        ⟨[none, some [], none], 4, 2, 2, OGen.looping [1, 2]⟩ 3).1
      = List.replicate 3 ORes.eos :=
  overlap_eos_persists_while_source_empty [1, 2]
    ⟨[none, some [], none], 4, 2, 2, OGen.looping [1, 2]⟩ 3 rfl (by decide)

/-- C10: for a constructed energy validator over at least one channel, the
multichannel energy function is used exactly when `channels > 1` and the
channel argument is None/"any"; the single-channel energy function is used
when `channels = 1`, for every integer channel index, and also for the
averaged modes "mix"/"avg"/"average". -/
theorem energy_fn_selection (sw ch : ℕ) (m : ChMode) (sel : SelKind) (fn : EnergyFn)
    (hch : 1 ≤ ch)
    (hinit : audioEnergyValidatorInit sw ch m = Except.ok (sel, fn)) :
    (fn = EnergyFn.multi ↔ 2 ≤ ch ∧ (m = ChMode.null ∨ m = ChMode.str "any"))
    ∧ (∀ s, (s = "mix" ∨ s = "avg" ∨ s = "average") → m = ChMode.str s → fn = EnergyFn.single)
    ∧ (∀ i : ℤ, m = ChMode.int i → fn = EnergyFn.single) := by
  have hfn : fn = energyFnChoice ch m := by
    rw [audioEnergyValidatorInit] at hinit
    rcases hc : make_channel_selector sw ch m with e | k
    · rw [hc] at hinit; exact Except.noConfusion hinit
    · rw [hc] at hinit
      simp only [Except.ok.injEq, Prod.mk.injEq] at hinit
      exact hinit.2.symm
  subst hfn
  refine ⟨?_, ?_, ?_⟩
  · rw [energyFnChoice]
    by_cases hcond : ch = 1 ∨ ¬ (m = ChMode.null ∨ m = ChMode.str "any")
    · rw [if_pos hcond]
      refine iff_of_false (by decide) ?_
      rintro ⟨h2, hm⟩
      rcases hcond with h1 | hno
      · omega
      · exact hno hm
    · rw [if_neg hcond]
      push_neg at hcond
      exact iff_of_true rfl ⟨by omega, hcond.2⟩
  · rintro s hsval rfl
    rw [energyFnChoice, if_pos]
    right
    intro hcon
    rcases hcon with hcon | hcon
    · exact ChMode.noConfusion hcon
    · rcases hsval with rfl | rfl | rfl <;> simp at hcon
  · rintro i rfl
    rw [energyFnChoice, if_pos]
    right
    intro hcon
    rcases hcon with hcon | hcon <;> exact ChMode.noConfusion hcon

theorem bufChunk_shift (data : Bytes) (need p : ℕ) (hp : p ≤ data.length) (k : ℕ) :
    bufChunk data need (min (p + need) data.length) k = bufChunk data need p (k+1) := by
  rw [bufChunk, bufChunk, Nat.succ_mul, ← Nat.add_assoc]
  by_cases hc : p + need ≤ data.length
  · rw [Nat.min_eq_left hc, Nat.add_right_comm p need (k * need)]
  · rw [Nat.min_eq_right (by omega), if_neg (by omega), if_neg (by omega)]

theorem bufRun_eq (n bps NN : ℕ) :
    ∀ (data : Bytes) (p : ℕ), p ≤ data.length →
    runReads (fun s => bufRead s n) (⟨data, p, bps⟩ : BufSrc) NN
      = ((List.range NN).map (bufChunk data (n * bps) p),
         ⟨data, min (p + NN * (n * bps)) data.length, bps⟩) := by
  induction NN with
  | zero =>
    intro data p hp
    rw [runReads]
    simp only [List.range_zero, List.map_nil, Nat.zero_mul, Nat.add_zero]
    rw [Nat.min_eq_left hp]
  | succ NN ih =>
    intro data p hp
    rw [runReads_succ, List.range_succ_eq_map, List.map_cons, List.map_map]
    by_cases hend : data.length ≤ p
    · have hbr : bufRead ⟨data, p, bps⟩ n = (none, ⟨data, p, bps⟩) := by
        rw [bufRead]
        exact if_pos hend
      simp only [hbr]
      rw [ih data p hp]
      dsimp only
      refine congrArg₂ Prod.mk ?_ ?_
      · refine congrArg₂ List.cons ?_ ?_
        · rw [bufChunk, if_neg (by omega)]
        · refine List.map_congr_left (fun k _ => ?_)
          have h1 := bufChunk_shift data (n * bps) p hp k
          have h2 : min (p + n * bps) data.length = p := by omega
          rw [h2] at h1
          exact h1
      · have : min (p + NN * (n * bps)) data.length
            = min (p + (NN + 1) * (n * bps)) data.length := by
          rw [Nat.succ_mul]
          omega
        rw [this]
    · push_neg at hend
      have hclen : ((data.drop p).take (n * bps)).length
          = min (n * bps) (data.length - p) := by
        simp [List.length_take, List.length_drop]
      have hbr : bufRead ⟨data, p, bps⟩ n
          = (some ((data.drop p).take (n * bps)),
             ⟨data, min (p + n * bps) data.length, bps⟩) := by
        rw [bufRead, if_neg (not_le.mpr hend)]
        dsimp only
        rw [hclen]
        have : p + min (n * bps) (data.length - p) = min (p + n * bps) data.length := by
          omega
        rw [this]
      simp only [hbr]
      rw [ih data (min (p + n * bps) data.length) (min_le_right _ _)]
      dsimp only
      refine congrArg₂ Prod.mk ?_ ?_
      · refine congrArg₂ List.cons ?_ ?_
        · rw [bufChunk, Nat.zero_mul, Nat.add_zero, if_pos hend]
        · exact List.map_congr_left (fun k _ => bufChunk_shift data (n * bps) p hp k)
      · have : min (min (p + n * bps) data.length + NN * (n * bps)) data.length
            = min (p + (NN + 1) * (n * bps)) data.length := by
          rw [Nat.succ_mul]
          omega
        rw [this]

theorem recRun_live (n NN : ℕ) :
    ∀ (src : BufSrc) (cache : List Bytes),
    runReads (recRead bufRead n) (RecSt.live src cache) NN
      = ((runReads (fun s => bufRead s n) src NN).1,
         RecSt.live (runReads (fun s => bufRead s n) src NN).2
           (cache ++ ((runReads (fun s => bufRead s n) src NN).1.filterMap id))) := by
  induction NN with
  | zero =>
    intro src cache
    rw [runReads, runReads]
    simp
  | succ NN ih =>
    intro src cache
    rw [runReads_succ, runReads_succ]
    rcases hb : bufRead src n with ⟨b, src'⟩
    cases b with
    | none =>
      have hstep : recRead bufRead n (RecSt.live src cache) = (none, RecSt.live src' cache) := by
        rw [recRead, hb]
      simp only [hstep, hb]
      rw [ih src' cache]
      simp [List.filterMap_cons]
    | some blk =>
      have hstep : recRead bufRead n (RecSt.live src cache)
          = (some blk, RecSt.live src' (cache ++ [blk])) := by
        rw [recRead, hb]
      simp only [hstep, hb]
      rw [ih src' (cache ++ [blk])]
      simp [List.filterMap_cons]

theorem recRun_replay (n NN : ℕ) :
    ∀ buf : BufSrc,
    runReads (recRead bufRead n) (RecSt.replay buf) NN
      = ((runReads (fun s => bufRead s n) buf NN).1,
         RecSt.replay (runReads (fun s => bufRead s n) buf NN).2) := by
  induction NN with
  | zero =>
    intro buf
    rw [runReads, runReads]
  | succ NN ih =>
    intro buf
    rw [runReads_succ, runReads_succ]
    rcases hb : bufRead buf n with ⟨b, buf'⟩
    have hstep : recRead bufRead n (RecSt.replay buf) = (b, RecSt.replay buf') := by
      rw [recRead, hb]
    simp only [hstep, hb]
    rw [ih buf']

theorem flatten_bufChunks (need : ℕ) (data : Bytes) :
    ∀ NN : ℕ,
    (((List.range NN).map (bufChunk data need 0)).filterMap id).flatten
      = data.take (min (NN * need) data.length) := by
  intro NN
  induction NN with
  | zero => simp
  | succ NN ih =>
    rw [List.range_succ, List.map_append, List.filterMap_append, List.flatten_append, ih]
    simp only [List.map_cons, List.map_nil]
    by_cases hc : 0 + NN * need < data.length
    · rw [show bufChunk data need 0 NN = some ((data.drop (0 + NN * need)).take need) from
        by rw [bufChunk, if_pos hc]]
      simp only [List.filterMap_cons, id_eq, List.filterMap_nil,
        List.flatten_cons, List.flatten_nil, List.append_nil]
      rw [Nat.zero_add]
      have hmin : min (NN * need) data.length = NN * need := by omega
      rw [hmin, ← List.take_add]
      refine List.take_eq_take.mpr ?_
      rw [Nat.succ_mul]
      omega
    · rw [show bufChunk data need 0 NN = none from by rw [bufChunk, if_neg hc]]
      rw [show List.filterMap id [(none : Option Bytes)] = [] from rfl]
      rw [List.flatten_nil, List.append_nil]
      refine List.take_eq_take.mpr ?_
      rw [Nat.succ_mul]
      omega

theorem bufChunk_of_take (data : Bytes) (need NN : ℕ) (hneed : 1 ≤ need) :
    (List.range NN).map (bufChunk (data.take (min (NN * need) data.length)) need 0)
      = (List.range NN).map (bufChunk data need 0) := by
  refine List.map_congr_left (fun k hk => ?_)
  rw [List.mem_range] at hk
  have hkk : (k + 1) * need ≤ NN * need := Nat.mul_le_mul_right need hk
  rw [Nat.succ_mul] at hkk
  rw [bufChunk, bufChunk]
  have hMlen : (data.take (min (NN * need) data.length)).length
      = min (NN * need) data.length := by
    rw [List.length_take]
    omega
  rw [hMlen]
  by_cases hc : 0 + k * need < data.length
  · rw [if_pos hc, if_pos (by omega)]
    congr 1
    rw [List.drop_take, List.take_take]
    refine List.take_eq_take.mpr ?_
    rw [List.length_drop]
    omega
  · rw [if_neg hc, if_neg (by omega)]

/-- C4: for a recording pipeline over a finite in-memory source (fixed
windows of `n >= 1` samples, `bps >= 1` bytes per sample), reading `N`
windows, rewinding (whatever the wrapped source's own rewind would do), and
reading `N` windows again reproduces byte-identical read results, and after
the rewind the data accessor returns exactly the concatenation of all
blocks originally read from the wrapped source. -/
theorem recorder_rewind_reproduces (data : Bytes) (bps n N : ℕ)
    (rw : BufSrc → Option BufSrc)
    (hbps : 1 ≤ bps) (hn : 1 ≤ n) (s2 : RecSt BufSrc)
    (h2 : recRewind rw BufSrc.bps
        (runReads (recRead bufRead n) (RecSt.live ⟨data, 0, bps⟩ []) N).2 = some s2) :
    (runReads (recRead bufRead n) s2 N).1
      = (runReads (recRead bufRead n) (RecSt.live ⟨data, 0, bps⟩ []) N).1
    ∧ recDataAcc s2
      = some ((((runReads (recRead bufRead n) (RecSt.live ⟨data, 0, bps⟩ []) N).1).filterMap id).flatten) := by
  have hbuf := bufRun_eq n bps N data 0 (Nat.zero_le _)
  have hlive := recRun_live n N (⟨data, 0, bps⟩ : BufSrc) []
  rw [hbuf] at hlive
  dsimp only at hlive
  set ws1 := (List.range N).map (bufChunk data (n * bps) 0) with hws1
  have hM : 0 + N * (n * bps) = N * (n * bps) := Nat.zero_add _
  rw [hM] at hlive
  set M := min (N * (n * bps)) data.length with hMdef
  -- the final live state and the rewind
  rw [hlive] at h2
  dsimp only at h2
  rw [recRewind] at h2
  simp only [List.nil_append, Option.some.injEq] at h2
  have hflat : (ws1.filterMap id).flatten = data.take M :=
    flatten_bufChunks (n * bps) data N
  subst h2
  constructor
  · -- the replayed windows equal the original windows
    rw [hlive]
    dsimp only
    rw [recRun_replay]
    dsimp only
    rw [hflat]
    have hrun := bufRun_eq n bps N (data.take M) 0 (Nat.zero_le _)
    rw [hrun]
    dsimp only
    rw [hws1]
    have hx := bufChunk_of_take data (n * bps) N (by simpa using Nat.mul_le_mul hn hbps)
    rw [← hMdef] at hx
    exact hx
  · rw [hlive]
    rfl

/-- C4 witness: a 10-byte source read as 4-sample windows (1 byte per
sample), three windows before and after the rewind. -/
theorem recorder_rewind_reproduces_witness :
    (runReads (recRead bufRead 4)
        (RecSt.replay ⟨[0, 1, 2, 3, 4, 5, 6, 7, 8, 9], 0, 1⟩ : RecSt BufSrc) 3).1
      = (runReads (recRead bufRead 4)
          (RecSt.live (⟨[0, 1, 2, 3, 4, 5, 6, 7, 8, 9], 0, 1⟩ : BufSrc) []) 3).1
    ∧ recDataAcc (RecSt.replay ⟨[0, 1, 2, 3, 4, 5, 6, 7, 8, 9], 0, 1⟩ : RecSt BufSrc)
      = some ((((runReads (recRead bufRead 4)
          (RecSt.live (⟨[0, 1, 2, 3, 4, 5, 6, 7, 8, 9], 0, 1⟩ : BufSrc) []) 3).1).filterMap id).flatten) :=
  recorder_rewind_reproduces [0, 1, 2, 3, 4, 5, 6, 7, 8, 9] 1 4 3
    (fun _ => Option.none) (by norm_num) (by norm_num)
    (RecSt.replay ⟨[0, 1, 2, 3, 4, 5, 6, 7, 8, 9], 0, 1⟩) (by decide)

theorem totalLen_nil : totalLen [] = 0 := rfl

theorem totalLen_cons_none (l : List (Option Bytes)) : totalLen (none :: l) = totalLen l :=
  rfl

theorem totalLen_cons_some (b : Bytes) (l : List (Option Bytes)) :
    totalLen (some b :: l) = b.length + totalLen l := rfl

theorem lim_run_total (maxS : ℕ) (data : Bytes) (bps n : ℕ)
    (hb : 1 ≤ bps) (hn : 1 ≤ n) (hlen : maxS * bps ≤ data.length) :
    ∀ (k r : ℕ), r ≤ maxS →
    totalLen (runReads (limRead bufRead n)
        (⟨⟨data, r * bps, bps⟩, (maxS : ℤ), bps, r⟩ : LimSt BufSrc) k).1
      = (min (r + k * n) maxS - r) * bps := by
  intro k
  induction k with
  | zero =>
    intro r hr
    simp only [runReads]
    rw [totalLen_nil]
    have : min (r + 0 * n) maxS = r := by omega
    rw [this, Nat.sub_self, Nat.zero_mul]
  | succ k ih =>
    intro r hr
    by_cases hfull : maxS ≤ r
    · have hstep : limRead bufRead n
          (⟨⟨data, r * bps, bps⟩, (maxS : ℤ), bps, r⟩ : LimSt BufSrc)
          = (none, ⟨⟨data, r * bps, bps⟩, (maxS : ℤ), bps, r⟩) := by
        simp only [limRead]
        rw [if_pos (by omega)]
      rw [runReads_succ, hstep]
      dsimp only
      rw [totalLen_cons_none, ih r hr]
      have : min (r + k * n) maxS = min (r + (k + 1) * n) maxS := by
        rw [Nat.succ_mul]
        omega
      rw [this]
    · push_neg at hfull
      set t := min (maxS - r) n with ht
      have htle : r + t ≤ maxS := by omega
      have hpos : r * bps < data.length := by
        have h1 := Nat.mul_le_mul_right bps (show r + 1 ≤ maxS by omega)
        rw [Nat.add_mul, Nat.one_mul] at h1
        omega
      have hchunklen : ((data.drop (r * bps)).take (t * bps)).length = t * bps := by
        rw [List.length_take, List.length_drop]
        have h1 := Nat.mul_le_mul_right bps htle
        rw [Nat.add_mul] at h1
        omega
      have hbr : bufRead ⟨data, r * bps, bps⟩ t
          = (some ((data.drop (r * bps)).take (t * bps)),
             ⟨data, (r + t) * bps, bps⟩) := by
        rw [bufRead, if_neg (not_le.mpr hpos)]
        dsimp only
        rw [hchunklen, Nat.add_mul]
      have hstep : limRead bufRead n
          (⟨⟨data, r * bps, bps⟩, (maxS : ℤ), bps, r⟩ : LimSt BufSrc)
          = (some ((data.drop (r * bps)).take (t * bps)),
             ⟨⟨data, (r + t) * bps, bps⟩, (maxS : ℤ), bps, r + t⟩) := by
        simp only [limRead]
        rw [if_neg (by omega)]
        have hteq : (min ((maxS : ℤ) - (r : ℤ)) (n : ℤ)).toNat = t := by omega
        rw [hteq, hbr]
        dsimp only
        rw [hchunklen, Nat.mul_div_cancel t (by omega : 0 < bps)]
      rw [runReads_succ, hstep]
      dsimp only
      rw [totalLen_cons_some, ih (r + t) htle, hchunklen, ← Nat.add_mul]
      congr 1
      rw [Nat.succ_mul]
      omega

/-- C3: the limiting decorator returns end-of-stream whenever the remaining
sample budget is exhausted (for any wrapped state and any request), and a
full read session (k reads of n >= 1 samples, with enough reads and enough
wrapped data to hit the cap) returns exactly
`round(maxRead * samplingRate) * sampleWidth * channels` bytes in total. -/
theorem limiter_read_cap (maxRead : ℚ) (sr sw ch n k : ℕ) (data : Bytes)
    (hbps : 1 ≤ sw * ch) (hn : 1 ≤ n)
    (h0 : 0 ≤ pyRound (maxRead * sr))
    (hlen : (pyRound (maxRead * sr)).toNat * (sw * ch) ≤ data.length)
    (hk : (pyRound (maxRead * sr)).toNat ≤ k * n) :
    (∀ (L : LimSt BufSrc) (m : ℕ), L.maxSamples - (L.readSamples : ℤ) ≤ 0 →
        limRead bufRead m L = (none, L))
    ∧ totalLen (runReads (limRead bufRead n)
        (limiterInit (⟨data, 0, sw * ch⟩ : BufSrc) maxRead sr sw ch) k).1
      = (pyRound (maxRead * sr)).toNat * (sw * ch) := by
  constructor
  · intro L m hrem
    simp only [limRead]
    rw [if_pos (le_trans (min_le_left _ _) hrem)]
  · set maxS := (pyRound (maxRead * sr)).toNat with hmS
    have hcast : pyRound (maxRead * sr) = (maxS : ℤ) := by omega
    rw [limiterInit, hcast]
    have h := lim_run_total maxS data (sw * ch) n hbps hn hlen k 0 (Nat.zero_le _)
    rw [Nat.zero_mul] at h
    rw [h]
    have : min (0 + k * n) maxS = maxS := by omega
    rw [this, Nat.sub_zero]

theorem pyRound_nine_fourths_times_sixteen : pyRound ((9/4 : ℚ) * ((16:ℕ) : ℚ)) = 36 := by
  have h : ((9/4 : ℚ) * ((16:ℕ) : ℚ)) = 36 := by norm_num
  rw [h, pyRound]
  norm_num

/-- C3 witness: `max_read = 9/4` seconds at rate 16, one byte per sample,
eight reads of five samples over a 40-byte source: the session returns
exactly `round(9/4 * 16) * 1 * 1 = 36` bytes. -/
theorem limiter_read_cap_witness :
    totalLen (runReads (limRead bufRead 5)
        (limiterInit (⟨List.range 40, 0, 1 * 1⟩ : BufSrc) (9/4) 16 1 1) 8).1
      = (pyRound ((9/4 : ℚ) * ((16:ℕ) : ℚ))).toNat * (1 * 1) :=
  (limiter_read_cap (9/4) 16 1 1 5 8 (List.range 40)
    (by norm_num) (by norm_num)
    (by rw [pyRound_nine_fourths_times_sixteen]; decide)
    (by rw [pyRound_nine_fourths_times_sixteen]; decide)
    (by rw [pyRound_nine_fourths_times_sixteen]; decide)).2

/-- C7: in a pipeline that records and limits (the reader facade wraps the
recorder inside the limiter), whatever the recorder state and the limiter's
progress, whenever the limiter's data accessor returns recorded data it is
truncated to at most `round(maxRead * samplingRate) * sampleWidth * channels`
bytes. -/
theorem limiter_data_bounded (maxRead : ℚ) (sr sw ch r : ℕ) (s : RecSt BufSrc) (d : Bytes)
    (h0 : 0 ≤ pyRound (maxRead * sr))
    (hd : limData recDataAcc
        { limiterInit s maxRead sr sw ch with readSamples := r } = some d) :
    d.length ≤ (pyRound (maxRead * sr)).toNat * (sw * ch) := by
  rw [limiterInit] at hd
  cases s with
  | live src cache =>
    rw [limData] at hd
    exact Option.noConfusion hd
  | replay buf =>
    rw [limData] at hd
    rw [show recDataAcc (RecSt.replay buf : RecSt BufSrc) = some buf.data from rfl] at hd
    rw [Option.map_some'] at hd
    have hdd : d = pyTake buf.data (pyRound (maxRead * sr) * ((sw * ch : ℕ) : ℤ)) := by
      exact (Option.some.injEq _ _ ▸ hd).symm
    subst hdd
    rw [pyTake, if_pos (mul_nonneg h0 (Int.natCast_nonneg _))]
    refine le_trans (List.length_take_le _ _) (le_of_eq ?_)
    rw [show pyRound (maxRead * sr) = ((pyRound (maxRead * sr)).toNat : ℤ) from
      (Int.toNat_of_nonneg h0).symm]
    rw [← Int.natCast_mul, Int.toNat_natCast, Int.toNat_natCast]

theorem pyRound_one_times_four : pyRound ((1 : ℚ) * ((4:ℕ) : ℚ)) = 4 := by
  have h : ((1 : ℚ) * ((4:ℕ) : ℚ)) = 4 := by norm_num
  rw [h, pyRound]
  norm_num

/-- C7 witness: a recording of six bytes behind a one-second limit at rate
4 (one byte per sample) exposes only four bytes through the data accessor,
within the `round(1 * 4) * 1 * 1 = 4` byte budget. -/
theorem limiter_data_bounded_witness :
    ([0, 1, 2, 3] : Bytes).length ≤ (pyRound ((1 : ℚ) * ((4:ℕ) : ℚ))).toNat * (1 * 1) := by
  refine limiter_data_bounded 1 4 1 1 0
    (RecSt.replay ⟨[0, 1, 2, 3, 4, 5], 0, 1⟩) [0, 1, 2, 3] ?_ ?_
  · rw [pyRound_one_times_four]
    decide
  · rw [limData, limiterInit]
    dsimp only
    rw [show recDataAcc (RecSt.replay ⟨[0, 1, 2, 3, 4, 5], 0, 1⟩ : RecSt BufSrc)
        = some [0, 1, 2, 3, 4, 5] from rfl]
    rw [Option.map_some', pyRound_one_times_four]
    rfl

/-- C9: every recorder state reports itself rewindable; its rewind never
invokes the wrapped source's own rewind operation (the result is the same
whatever that operation would do) and always succeeds, so a recording
pipeline never fails with a not-rewindable error even over a source whose
own rewind always fails. -/
theorem recorder_rewindable_never_fails (σ : Type) (rw rw' : σ → Option σ)
    (bpsOf : σ → ℕ) (s : RecSt σ) :
    recRewindable s = true
    ∧ recRewind rw bpsOf s = recRewind rw' bpsOf s
    ∧ (recRewind rw bpsOf s).isSome = true := by
  refine ⟨rfl, ?_, ?_⟩ <;> cases s <;> rfl

/-- C9 witness: a live recorder over a source whose own rewind always fails
still reports rewindable and rewinds successfully, with the same result as
over a source whose rewind succeeds. -/
theorem recorder_rewindable_never_fails_witness :
    recRewindable (RecSt.live (⟨[0], 0, 1⟩ : BufSrc) []) = true
    ∧ recRewind (fun _ => Option.none) BufSrc.bps (RecSt.live (⟨[0], 0, 1⟩ : BufSrc) [])
      = recRewind (fun s => some s) BufSrc.bps (RecSt.live (⟨[0], 0, 1⟩ : BufSrc) [])
    ∧ (recRewind (fun _ => Option.none) BufSrc.bps
        (RecSt.live (⟨[0], 0, 1⟩ : BufSrc) [])).isSome = true :=
  recorder_rewindable_never_fails BufSrc (fun _ => Option.none) (fun s => some s)
    BufSrc.bps (RecSt.live ⟨[0], 0, 1⟩ [])

/-- C10 witness: a stereo validator with `use_channel = None` is well
constructed and uses the multichannel energy function. -/
theorem energy_fn_selection_witness :
    EnergyFn.multi = EnergyFn.multi
      ↔ 2 ≤ 2 ∧ (ChMode.null = ChMode.null ∨ ChMode.null = ChMode.str "any") :=
  (energy_fn_selection 2 2 ChMode.null SelKind.separate EnergyFn.multi
    (by norm_num) (by rfl)).1
